import Mathlib

/-!
Verification development for the LifeTraker backend's analytics and
aggregation core (stats, streaks and rankings services).

Dates are modelled at the granularity the services work with after
`normalizeDay`: a calendar day is the integer number of days since the Unix
epoch (1970-01-01, UTC).  `daysFromCivil` / `civilFromDays` are the standard
proleptic-Gregorian conversions that the JavaScript `Date` UTC accessors
(`Date.UTC`, `getUTCFullYear`, `getUTCMonth`, `getUTCDate`, `getUTCDay`,
`toISOString`) implement.  `Int.fdiv` models `Math.floor` of a real division
by a positive divisor.
-/

namespace LifeTraker

/-- Days since 1970-01-01 of the civil date `(y, m, d)` (proleptic Gregorian,
month `1..12`).  Mirrors the arithmetic performed by `Date.UTC(y, m-1, d)`. -/
def daysFromCivil (y m d : Int) : Int :=
  let y' := if m ≤ 2 then y - 1 else y
  let era := y'.fdiv 400
  let yoe := y' - era * 400
  let mp := (m + 9).emod 12
  let doy := (153 * mp + 2).fdiv 5 + d - 1
  let doe := yoe * 365 + yoe.fdiv 4 - yoe.fdiv 100 + doy
  era * 146097 + doe - 719468

/-- Civil date `(year, month, day)` of an epoch-day number.  Mirrors the
JavaScript `getUTCFullYear` / `getUTCMonth` / `getUTCDate` accessors. -/
def civilFromDays (z : Int) : Int × Int × Int :=
  let z' := z + 719468
  let era := z'.fdiv 146097
  let doe := z' - era * 146097
  let yoe := (doe - doe.fdiv 1460 + doe.fdiv 36524 - doe.fdiv 146096).fdiv 365
  let y := yoe + era * 400
  let doy := doe - (365 * yoe + yoe.fdiv 4 - yoe.fdiv 100)
  let mp := (5 * doy + 2).fdiv 153
  let d := doy - (153 * mp + 2).fdiv 5 + 1
  let m := if mp < 10 then mp + 3 else mp - 9
  (if m ≤ 2 then y + 1 else y, m, d)

/-- `Date.prototype.getUTCDay`: weekday with Sunday = 0 (1970-01-01 was a
Thursday, weekday 4). -/
def getUTCDay (z : Int) : Int :=
  (z + 4).emod 7

/-- `String(n).padStart(2, '0')`. -/
def pad2 (n : Int) : String :=
  let s := toString n
  if s.length < 2 then "0" ++ s else s

/-- The three bucketing granularities accepted by `activityMetrics`. -/
inductive Period where
  | day
  | week
  | month
deriving DecidableEq

/-- `StatsService.bucketKey` (stats.service.ts:169-185), translated verbatim:
* `day`: the `YYYY-MM-DD` slice of `toISOString()`;
* `month`: `` `${getUTCFullYear()}-${pad(getUTCMonth()+1)}` ``;
* `week`: Monday-anchored week start, then
  `floor((weekStart - Date.UTC(weekStart.year, 0, 4)) / oneWeek) + 1`,
  keyed by `weekStart`'s calendar year. -/
def bucketKey (z : Int) (period : Period) : String :=
  match period with
  | .day =>
    let c := civilFromDays z
    let y := c.1
    let m := pad2 c.2.1
    let d := pad2 c.2.2
    s!"{y}-{m}-{d}"
  | .month =>
    let c := civilFromDays z
    let y := c.1
    let m := pad2 c.2.1
    s!"{y}-{m}"
  | .week =>
    let dayNum := (getUTCDay z + 6).emod 7
    let weekStart := z - dayNum
    let wy := (civilFromDays weekStart).1
    let firstThursday := daysFromCivil wy 1 4
    let weekNumber := (weekStart - firstThursday).fdiv 7 + 1
    let w := pad2 weekNumber
    s!"{wy}-W{w}"

/-- `daysBetweenInclusive`: the code's
`Math.floor((to - from) / MS_PER_DAY) + 1` at day granularity. -/
def daysBetweenInclusive (a b : Int) : Int :=
  (b - a) + 1

/-- `StatsService.resolveRange` (stats.service.ts:16-25) at day granularity:
`today` is today's normalized day; an absent `from` defaults to
`today - 30` (the normalization of `now` with `setUTCDate(getUTCDate() - 30)`
applied), an absent `to` defaults to `today`; throws when `from > to`. -/
def resolveRange (today : Int) (rawFrom rawTo : Option Int) :
    Except String (Int × Int) :=
  let f := rawFrom.getD (today - 30)
  let t := rawTo.getD today
  if f > t then .error "from debe ser <= to" else .ok (f, t)

/-- The four goal target kinds of the Prisma `GoalTargetType` enum. -/
inductive GoalTargetType where
  | DAILY
  | BOOLEAN
  | COUNT
  | WEEKLY
deriving DecidableEq

/-- The fields of a `Goal` row that `goalProgress` reads.  Dates are already
normalized epoch days. -/
structure Goal where
  targetType : GoalTargetType
  targetValue : Option ℚ
  startDate : Int
  endDate : Option Int
deriving DecidableEq

/-- The fields of a `GoalCheckin` row that the stats service reads: the
normalized day, the `done` flag and the optional numeric `value`. -/
structure GoalCheckin where
  date : Int
  done : Bool
  value : Option ℚ
deriving DecidableEq

/-- `c.done || (c.value ?? 0) > 0` — the "active" test used by
`goalProgress` and `activityMetrics`. -/
def isActive (c : GoalCheckin) : Bool :=
  c.done || decide ((0 : ℚ) < c.value.getD 0)

/-- The result record of `StatsService.goalProgress` (identifier and range
fields omitted; they are returned verbatim). -/
structure GoalProgress where
  targetType : GoalTargetType
  targetValue : Option ℚ
  totalCheckins : Nat
  doneCount : Nat
  valueSum : ℚ
  completion : Option ℚ
deriving DecidableEq

/-- `StatsService.goalProgress` (stats.service.ts:42-118), translated
verbatim over the fetched check-in rows.  `rangeTo` is the resolved `to` of
the range; numeric values are modelled in `ℚ`. -/
def goalProgress (goal : Goal) (rangeTo : Int) (checkins : List GoalCheckin) :
    GoalProgress :=
  let total := checkins.length
  let doneCheckins := checkins.filter isActive
  let doneCount := doneCheckins.length
  let valueSum := checkins.foldl (fun acc c => acc + c.value.getD 0) 0
  let doneDays := (doneCheckins.map (fun c => c.date)).dedup.length
  let target := goal.targetValue
  let completion : Option ℚ :=
    if goal.targetType = .DAILY then
      let goalStart := goal.startDate
      let goalEnd := (goal.endDate.getD rangeTo)
      if goalStart ≤ goalEnd then
        let totalDays := daysBetweenInclusive goalStart goalEnd
        if 0 < totalDays then
          some (min (doneDays : ℚ) (totalDays : ℚ) / (totalDays : ℚ))
        else none
      else none
    else
      match target with
      | some t => if 0 < t then some (min 1 (valueSum / t)) else none
      | none => none
  ⟨goal.targetType, target, total, doneCount, valueSum, completion⟩

/-! ### Streaks: `StreaksService.statsForMember` (streaks.service.ts:157-190) -/

/-- The check-in loop of `statsForMember`: state is the previous day, the
current run length and the longest run length seen so far. -/
def streakLoop (prev : Option Int) (current longest : Nat) :
    List Int → Nat × Nat
  | [] => (current, longest)
  | d :: rest =>
    let cur : Nat :=
      match prev with
      | none => 1
      | some p => if d - p = 1 then current + 1 else 1
    streakLoop (some d) cur (max longest cur) rest

/-- `StreaksService.statsForMember` over the (date-ascending, one row per
day) `done = true` check-in days: returns `(current, longest, totalDone)`. -/
def statsForMember (days : List Int) : Nat × Nat × Nat :=
  let r := streakLoop none 0 0 days
  (r.1, r.2, days.length)

/-- Specification-side decomposition of a day sequence into its maximal
blocks of consecutive calendar days (adjacent elements differing by exactly
one day stay in one block). -/
def splitRuns : List Int → List (List Int)
  | [] => []
  | [d] => [[d]]
  | d :: r :: rest =>
    match splitRuns (r :: rest) with
    | [] => [[d]]
    | g :: gs => if r - d = 1 then (d :: g) :: gs else [d] :: g :: gs

/-- The lengths of the maximal consecutive-day runs, in order. -/
def runLengths (l : List Int) : List Nat :=
  (splitRuns l).map List.length

/-- The last element of a list, or `d` when the list is empty. -/
def lastD : List Nat → Nat → Nat
  | [], d => d
  | [x], _ => x
  | _ :: y :: ys, d => lastD (y :: ys) d

/-- The length of the longest run of consecutive calendar days. -/
def longestRun (l : List Int) : Nat :=
  (runLengths l).foldr max 0

/-- The length of the run of consecutive calendar days ending at the last
element of the sequence (0 for the empty sequence). -/
def currentRun (l : List Int) : Nat :=
  lastD (runLengths l) 0

/-- Adds `c` to the first entry of a list of run lengths. -/
def bumpHead (c : Nat) : List Nat → List Nat
  | [] => []
  | x :: xs => (c + x) :: xs

/-- Whether the first day of the sequence extends a run that ended on day
`p` (i.e. is exactly one calendar day after `p`). -/
def chainsInto (p : Int) : List Int → Prop
  | [] => False
  | d :: _ => d - p = 1

instance (p : Int) : (ds : List Int) → Decidable (chainsInto p ds)
  | [] => inferInstanceAs (Decidable False)
  | d :: _ => inferInstanceAs (Decidable (d - p = 1))

/-! ### Rankings: `RankingsService.compute` -/

/-- A persisted `rankingEntry` row (the fields `compute` writes and reads). -/
structure RankingEntry where
  period : String
  userId : String
  score : Int
deriving DecidableEq

/-- The rows handed to `createMany`: one entry per user with a positive
score, all carrying the computed period.  `scores` is the merged
goal-count + streak-count map in iteration order. -/
def entriesData (period : String) (scores : List (String × Int)) :
    List RankingEntry :=
  (scores.filter fun p => decide (0 < p.2)).map fun p => ⟨period, p.1, p.2⟩

/-- The persistence effect of `compute` on the `rankingEntry` table:
`deleteMany({where: {period}})` followed by `createMany(entriesData)`
(when `entriesData` is empty, `compute` returns right after the delete,
which coincides with appending nothing). -/
def computePersist (db : List RankingEntry) (period : String)
    (scores : List (String × Int)) : List RankingEntry :=
  db.filter (fun e => !(e.period == period)) ++ entriesData period scores

/-- Score-descending order on ranking entries (`orderBy: {score: 'desc'}`). -/
def scoreGE (a b : RankingEntry) : Prop :=
  b.score ≤ a.score

instance : DecidableRel scoreGE :=
  fun a b => inferInstanceAs (Decidable (b.score ≤ a.score))

instance : IsTotal RankingEntry scoreGE :=
  ⟨fun a b => le_total b.score a.score⟩

instance : IsTrans RankingEntry scoreGE :=
  ⟨fun _ _ _ h1 h2 => le_trans h2 h1⟩

/-- The read-back `findMany({where: {period}, orderBy: {score: 'desc'}})`:
the period's entries in some score-descending order (modelled as a stable
sort; the spec leaves tie order to the store). -/
def computeRankings (db : List RankingEntry) (period : String) :
    List RankingEntry :=
  List.insertionSort scoreGE (db.filter fun e => e.period == period)

/-- The two notification kinds `compute` emits. -/
inductive NotifKind where
  | TOP3
  | RESULT
deriving DecidableEq

/-- One `notifications.createForUser` call: recipient, kind and the
`{period, rank, score, totalUsers}` payload. -/
structure Notification where
  userId : String
  kind : NotifKind
  period : String
  rank : Nat
  score : Int
  totalUsers : Nat
deriving DecidableEq

/-- The notification list built by `rankings.map((entry, index) => ...)`,
carrying `rank = index + 1` starting from `rank`. -/
def notifsFrom (period : String) (total : Nat) (rank : Nat) :
    List RankingEntry → List Notification
  | [] => []
  | e :: rest =>
    ⟨e.userId, if rank ≤ 3 then .TOP3 else .RESULT, period, rank, e.score,
      total⟩ :: notifsFrom period total (rank + 1) rest

/-- All notifications dispatched for a ranked leaderboard (1-based ranks). -/
def notificationsFor (period : String) (rankings : List RankingEntry) :
    List Notification :=
  notifsFrom period rankings.length 1 rankings

/-- `Promise.all(...)` over the per-recipient dispatches: it settles
successfully exactly when no recipient's dispatch rejects. -/
def dispatchAllOk (fails : String → Bool) (ns : List Notification) : Bool :=
  ns.all fun n => !(fails n.userId)

/-- The value `compute` returns on normal completion. -/
structure ComputeOutput where
  period : String
  totalUsers : Nat
  rankings : List RankingEntry
deriving DecidableEq

/-- End-to-end model of `RankingsService.compute`: returns the database
after the replace, the list of recipients whose dispatch was attempted
(`rankings.map` starts every `createForUser` before `Promise.all` awaits
them), and the function's outcome — `Except.error` models the rejection
that a bare `await Promise.all` propagates when any dispatch fails. -/
def computeRun (fails : String → Bool) (db : List RankingEntry)
    (period : String) (scores : List (String × Int)) :
    List RankingEntry × List String × Except Unit ComputeOutput :=
  let db' := computePersist db period scores
  if entriesData period scores = [] then
    (db', [], .ok ⟨period, 0, []⟩)
  else
    let rankings := computeRankings db' period
    let ns := notificationsFor period rankings
    (db', ns.map fun n => n.userId,
      if dispatchAllOk fails ns then .ok ⟨period, rankings.length, rankings⟩
      else .error ())

/-! ### Bucketing: `StatsService.activityMetrics` (stats.service.ts:187-237) -/

/-- One bucket of `activityMetrics`: key plus per-source counters and the
recomputed total. -/
structure Bucket where
  key : String
  goalCheckins : Nat
  streakCheckins : Nat
  total : Nat
deriving DecidableEq

/-- Processing one goal check-in: `upsertBucket(key)` (lazily creating a
zero bucket, preserving insertion order) followed by
`bucket.goalCheckins += inc; bucket.total = goalCheckins + streakCheckins`
where `inc` is 1 for an active record and 0 otherwise. -/
def bumpGoal (m : List Bucket) (k : String) (inc : Nat) : List Bucket :=
  if m.any fun b => b.key == k then
    m.map fun b =>
      if b.key == k then
        ⟨b.key, b.goalCheckins + inc, b.streakCheckins,
          b.goalCheckins + inc + b.streakCheckins⟩
      else b
  else m ++ [⟨k, inc, 0, inc + 0⟩]

/-- Processing one streak check-in (already filtered to `done = true`):
`bucket.streakCheckins += 1; bucket.total = goalCheckins + streakCheckins`. -/
def bumpStreak (m : List Bucket) (k : String) : List Bucket :=
  if m.any fun b => b.key == k then
    m.map fun b =>
      if b.key == k then
        ⟨b.key, b.goalCheckins, b.streakCheckins + 1,
          b.goalCheckins + (b.streakCheckins + 1)⟩
      else b
  else m ++ [⟨k, 0, 1, 0 + 1⟩]

/-- Code-unit-wise lexicographic comparison of character sequences: the
order `localeCompare` induces on the ASCII bucket keys at hand. -/
def lexLE : List Char → List Char → Bool
  | [], _ => true
  | _ :: _, [] => false
  | x :: xs, y :: ys =>
    if x.toNat = y.toNat then lexLE xs ys else decide (x.toNat < y.toNat)

/-- Ascending bucket-key order (`(a, b) => a.key.localeCompare(b.key)`). -/
def keyLE (a b : Bucket) : Prop :=
  lexLE a.key.data b.key.data = true

instance : DecidableRel keyLE :=
  fun a b => inferInstanceAs (Decidable (lexLE a.key.data b.key.data = true))

/-- `StatsService.activityMetrics` over the fetched rows: goal check-ins
(with their `done`/`value` flags) and streak check-in days (already
filtered to `done = true`), bucketed at the given granularity and sorted
ascending by key. -/
def activityMetrics (period : Period) (goalEvents : List GoalCheckin)
    (streakEvents : List Int) : List Bucket :=
  let m1 := goalEvents.foldl
    (fun m c => bumpGoal m (bucketKey c.date period)
      (if isActive c then 1 else 0)) []
  let m2 := streakEvents.foldl
    (fun m d => bumpStreak m (bucketKey d period)) m1
  List.insertionSort keyLE m2

/-! ## Lemmas -/

theorem lexLE_total (a b : List Char) : lexLE a b = true ∨ lexLE b a = true := by
  induction a generalizing b with
  | nil => exact Or.inl rfl
  | cons x xs ih =>
    cases b with
    | nil => exact Or.inr rfl
    | cons y ys =>
      by_cases h : x.toNat = y.toNat
      · rcases ih ys with h1 | h1
        · exact Or.inl (by simp [lexLE, h, h1])
        · exact Or.inr (by simp [lexLE, h.symm, h1])
      · rcases Nat.lt_or_ge x.toNat y.toNat with hlt | hge
        · exact Or.inl (by simp [lexLE, h, hlt])
        · have hne : y.toNat ≠ x.toNat := fun e => h e.symm
          have hlt : y.toNat < x.toNat := lt_of_le_of_ne hge hne
          exact Or.inr (by simp [lexLE, hne, hlt])

theorem lexLE_trans (a b c : List Char) (hab : lexLE a b = true)
    (hbc : lexLE b c = true) : lexLE a c = true := by
  induction a generalizing b c with
  | nil => rfl
  | cons x xs ih =>
    cases b with
    | nil => simp [lexLE] at hab
    | cons y ys =>
      cases c with
      | nil => simp [lexLE] at hbc
      | cons z zs =>
        simp only [lexLE] at hab hbc ⊢
        by_cases h1 : x.toNat = y.toNat <;> by_cases h2 : y.toNat = z.toNat
        · simp only [if_pos h1] at hab
          simp only [if_pos h2] at hbc
          simp only [if_pos (h1.trans h2)]
          exact ih ys zs hab hbc
        · simp only [if_pos h1] at hab
          simp only [if_neg h2, decide_eq_true_eq] at hbc
          have hxz : x.toNat < z.toNat := h1 ▸ hbc
          simp [Nat.ne_of_lt hxz, hxz]
        · simp only [if_neg h1, decide_eq_true_eq] at hab
          simp only [if_pos h2] at hbc
          have hxz : x.toNat < z.toNat := h2 ▸ hab
          simp [Nat.ne_of_lt hxz, hxz]
        · simp only [if_neg h1, decide_eq_true_eq] at hab
          simp only [if_neg h2, decide_eq_true_eq] at hbc
          have hxz : x.toNat < z.toNat := Nat.lt_trans hab hbc
          simp [Nat.ne_of_lt hxz, hxz]

instance : IsTotal Bucket keyLE :=
  ⟨fun a b => lexLE_total a.key.data b.key.data⟩

instance : IsTrans Bucket keyLE :=
  ⟨fun a b c => lexLE_trans a.key.data b.key.data c.key.data⟩

theorem streakLoop_longest (ds : List Int) :
    ∀ prev c L, streakLoop prev c L ds =
      ((streakLoop prev c 0 ds).1, max L (streakLoop prev c 0 ds).2) := by
  induction ds with
  | nil => intro prev c L; simp [streakLoop]
  | cons d rest ih =>
    intro prev c L
    simp only [streakLoop]
    generalize (match prev with
      | none => 1
      | some p => if d - p = 1 then c + 1 else 1) = cur
    rw [ih (some d) cur (max L cur), ih (some d) cur (max 0 cur)]
    rw [Nat.zero_max, Nat.max_assoc]

theorem splitRuns_ne_nil (d : Int) (rest : List Int) :
    splitRuns (d :: rest) ≠ [] := by
  cases rest with
  | nil => simp [splitRuns]
  | cons r rest' =>
    cases h : splitRuns (r :: rest') with
    | nil => simp [splitRuns, h]
    | cons g gs =>
      simp only [splitRuns, h]
      split <;> simp

theorem runLengths_cons_exists (d : Int) (rest : List Int) :
    ∃ x xs, runLengths (d :: rest) = x :: xs := by
  cases h : splitRuns (d :: rest) with
  | nil => exact absurd h (splitRuns_ne_nil d rest)
  | cons g gs => exact ⟨g.length, gs.map List.length, by simp [runLengths, h]⟩

theorem runLengths_cons_cons (d r : Int) (rest : List Int) :
    runLengths (d :: r :: rest) =
      if r - d = 1 then bumpHead 1 (runLengths (r :: rest))
      else 1 :: runLengths (r :: rest) := by
  obtain ⟨g, gs, h⟩ : ∃ g gs, splitRuns (r :: rest) = g :: gs := by
    cases h : splitRuns (r :: rest) with
    | nil => exact absurd h (splitRuns_ne_nil r rest)
    | cons g gs => exact ⟨g, gs, rfl⟩
  simp only [runLengths, splitRuns, h]
  split
  · simp [bumpHead, Nat.add_comm]
  · simp

theorem lastD_cons_irrel (z : Nat) (xs : List Nat) (a b : Nat) :
    lastD (z :: xs) a = lastD (z :: xs) b := by
  induction xs generalizing z with
  | nil => rfl
  | cons y ys ih => exact ih y

theorem max_absorb (c x F : Nat) (h : c ≤ x) : max c (max x F) = max x F :=
  Nat.max_eq_right (le_trans h (Nat.le_max_left x F))

theorem streakLoop_eq_runs (ds : List Int) : ∀ p c,
    streakLoop (some p) c 0 ds =
      (lastD (if chainsInto p ds then bumpHead c (runLengths ds)
          else runLengths ds) c,
        (if chainsInto p ds then bumpHead c (runLengths ds)
          else runLengths ds).foldr max 0) := by
  induction ds with
  | nil =>
    intro p c
    simp [streakLoop, chainsInto, runLengths, splitRuns, lastD]
  | cons d rest ih =>
    intro p c
    have key : streakLoop (some p) c 0 (d :: rest) =
        ((streakLoop (some d) (if d - p = 1 then c + 1 else 1) 0 rest).1,
          max (if d - p = 1 then c + 1 else 1)
            (streakLoop (some d) (if d - p = 1 then c + 1 else 1) 0 rest).2) := by
      simp only [streakLoop]
      rw [streakLoop_longest, Nat.zero_max]
    rw [key]
    cases rest with
    | nil =>
      by_cases hdp : d - p = 1 <;>
        simp [hdp, streakLoop, chainsInto, runLengths, splitRuns, bumpHead,
          lastD, Nat.max_zero]
    | cons r rest' =>
      rw [ih d (if d - p = 1 then c + 1 else 1)]
      obtain ⟨x, xs, hRL⟩ := runLengths_cons_exists r rest'
      simp only [chainsInto, runLengths_cons_cons, hRL]
      by_cases hrd : r - d = 1 <;> by_cases hdp : d - p = 1
      · -- run continues at both joints
        simp only [if_pos hrd, if_pos hdp, bumpHead, Prod.mk.injEq]
        have e : c + (1 + x) = c + 1 + x := by omega
        constructor
        · rw [e]
          exact lastD_cons_irrel _ _ _ _
        · rw [e]
          simp only [List.foldr_cons]
          exact max_absorb _ _ _ (Nat.le_add_right (c + 1) x)
      · -- first day starts a fresh run, second day continues it
        simp only [if_pos hrd, if_neg hdp, bumpHead, Prod.mk.injEq]
        constructor
        · exact lastD_cons_irrel _ _ _ _
        · simp only [List.foldr_cons]
          exact max_absorb _ _ _ (Nat.le_add_right 1 x)
      · -- first day continues the run ending at p, second day breaks it
        simp only [if_neg hrd, if_pos hdp, bumpHead, Prod.mk.injEq]
        constructor
        · show lastD (x :: xs) (c + 1) = lastD ((c + 1) :: x :: xs) c
          rw [show lastD ((c + 1) :: x :: xs) c = lastD (x :: xs) c from rfl]
          exact lastD_cons_irrel _ _ _ _
        · rfl
      · -- both joints break
        simp only [if_neg hrd, if_neg hdp, bumpHead, Prod.mk.injEq]
        constructor
        · show lastD (x :: xs) 1 = lastD (1 :: x :: xs) c
          rw [show lastD (1 :: x :: xs) c = lastD (x :: xs) c from rfl]
          exact lastD_cons_irrel _ _ _ _
        · rfl

/-! ## Claims -/

/-- C1: the spec claims `bucketKey` follows ISO-8601 week numbering, with
2024-01-01 (a Monday) under `2024-W01` and 2023-12-31 (a Sunday) under
`2023-W52`.  The code (whose comment reads `// ISO week number`) instead
anchors on January 4 taken as "first Thursday" and floors the week
distance, producing `2024-W00` and `2023-W51` — one week short of the ISO
values on both of the spec's own examples. -/
theorem C1_week_bucket_key_off_by_one :
    bucketKey (daysFromCivil 2024 1 1) .week = "2024-W00" ∧
    bucketKey (daysFromCivil 2023 12 31) .week = "2023-W51" ∧
    bucketKey (daysFromCivil 2024 1 1) .week ≠ "2024-W01" ∧
    bucketKey (daysFromCivil 2023 12 31) .week ≠ "2023-W52" :=
  ⟨by decide, by decide, by decide, by decide⟩

/-- C2 (counterexample): with no arguments, `resolveRange` returns the
window `[today - 30, today]`, which spans 31 inclusive days, not the 30
the claim states. -/
theorem C2_default_window_counterexample :
    resolveRange 19723 none none = .ok (19693, 19723) ∧
    daysBetweenInclusive 19693 19723 = 31 ∧ (31 : Int) ≠ 30 :=
  ⟨by rfl, by decide, by decide⟩

/-- C2 (amended): with neither bound supplied, `resolveRange` returns the
31-day-inclusive window `[today - 30, today]` ending on today's normalized
day; for any supplied arguments it succeeds with the resolved bounds, and
fails exactly when the resolved `from` is later than the resolved `to`. -/
theorem C2_resolve_range (today : Int) (rawFrom rawTo : Option Int) :
    resolveRange today none none = .ok (today - 30, today) ∧
    daysBetweenInclusive (today - 30) today = 31 ∧
    (∀ r, resolveRange today rawFrom rawTo = .ok r →
      r = (rawFrom.getD (today - 30), rawTo.getD today)) ∧
    ((∃ e, resolveRange today rawFrom rawTo = .error e) ↔
      rawTo.getD today < rawFrom.getD (today - 30)) := by
  refine ⟨?_, ?_, ?_, ?_⟩
  · simp only [resolveRange, Option.getD_none]
    rw [if_neg (by omega : ¬ today - 30 > today)]
  · simp only [daysBetweenInclusive]
    omega
  · intro r hr
    simp only [resolveRange] at hr
    split at hr
    · exact absurd hr (by simp)
    · exact (Except.ok.injEq _ _).mp hr |>.symm ▸ rfl
  · simp only [resolveRange]
    split
    · exact ⟨fun _ => by omega, fun _ => ⟨_, rfl⟩⟩
    · exact ⟨fun ⟨e, he⟩ => by simp at he, fun h => by omega⟩

/-- C2 (witness): the amended statement evaluated at `today = 19723` with
both bounds absent. -/
theorem C2_resolve_range_witness :
    resolveRange 19723 none none = .ok (19693, 19723) ∧
    daysBetweenInclusive (19723 - 30) 19723 = 31 := by
  have h := C2_resolve_range 19723 none none
  refine ⟨?_, h.2.1⟩
  have h1 := h.1
  norm_num at h1
  exact h1

/-- C3: over every ascending, duplicate-free day sequence, the streak
statistics of `statsForMember` are exactly the length of the run of
consecutive days ending at the last element, the length of the longest
run of consecutive days, and the number of elements. -/
theorem C3_run_tracker (days : List Int) (hasc : days.Chain' (· < ·)) :
    statsForMember days = (currentRun days, longestRun days, days.length) := by
  cases days with
  | nil => rfl
  | cons d rest =>
    have h0 : streakLoop none 0 0 (d :: rest) =
        streakLoop (some d) 0 0 (d :: rest) := by
      show streakLoop (some d) 1 (max 0 1) rest =
        streakLoop (some d) (if d - d = 1 then 0 + 1 else 1)
          (max 0 (if d - d = 1 then 0 + 1 else 1)) rest
      rw [if_neg (show ¬ d - d = 1 by omega)]
    simp only [statsForMember, h0, streakLoop_eq_runs]
    rw [if_neg (show ¬ chainsInto d (d :: rest) by
      simp only [chainsInto]; omega)]
    simp only [currentRun, longestRun]

/-- C3 (witness): the spec's own example `[D1, D2, D3, D5]` with `D4`
missing yields current = 1, longest = 3, totalDone = 4. -/
theorem C3_run_tracker_witness :
    statsForMember [0, 1, 2, 4] = (1, 3, 4) ∧
    currentRun [0, 1, 2, 4] = 1 ∧ longestRun [0, 1, 2, 4] = 3 := by
  have h := C3_run_tracker [0, 1, 2, 4]
    (by simp only [List.chain'_cons, List.chain'_singleton, and_true]; omega)
  exact ⟨by rw [h]; rfl, by rfl, by rfl⟩

/-- C4: for a DAILY goal the completion is `null` when the normalized goal
end (or the range's `to` when the goal is open-ended) precedes the
normalized goal start, and otherwise equals
`min(doneDays, totalDays) / totalDays` with
`totalDays = daysBetweenInclusive(goalStart, goalEnd)` and `doneDays` the
number of distinct calendar days among active check-ins. -/
theorem C4_daily_completion (g : Goal) (rangeTo : Int) (cs : List GoalCheckin)
    (hT : g.targetType = .DAILY) :
    (g.endDate.getD rangeTo < g.startDate →
      (goalProgress g rangeTo cs).completion = none) ∧
    (g.startDate ≤ g.endDate.getD rangeTo →
      (goalProgress g rangeTo cs).completion =
        some (min (((cs.filter isActive).map (fun c => c.date)).dedup.length : ℚ)
            ((daysBetweenInclusive g.startDate (g.endDate.getD rangeTo) : Int) : ℚ) /
          ((daysBetweenInclusive g.startDate (g.endDate.getD rangeTo) : Int) : ℚ))) := by
  constructor
  · intro hlt
    simp only [goalProgress, hT, eq_self_iff_true, if_true]
    rw [if_neg (not_le.mpr hlt)]
  · intro hle
    simp only [goalProgress, hT, eq_self_iff_true, if_true]
    rw [if_pos hle,
      if_pos (show 0 < daysBetweenInclusive g.startDate (g.endDate.getD rangeTo) by
        simp only [daysBetweenInclusive]; omega)]

/-- C4 (witness): a DAILY goal over 2024-01-01 .. 2024-01-10 (10 inclusive
days) with 7 distinct active days has completion 7/10. -/
theorem C4_daily_completion_witness :
    (goalProgress ⟨.DAILY, none, 19723, some 19732⟩ 19752
      ((List.range 7).map fun i => ⟨19723 + i, true, none⟩)).completion =
      some (7 / 10) := by
  have h := (C4_daily_completion ⟨.DAILY, none, 19723, some 19732⟩ 19752
      ((List.range 7).map fun i => ⟨19723 + i, true, none⟩) rfl).2 (by decide)
  rw [h]
  rw [show ((((List.range 7).map fun i =>
      (⟨19723 + i, true, none⟩ : GoalCheckin)).filter isActive).map
        (fun c => c.date)).dedup.length = 7 from rfl]
  rw [show daysBetweenInclusive
      (Goal.mk .DAILY none 19723 (some 19732)).startDate
      ((Goal.mk .DAILY none 19723 (some 19732)).endDate.getD 19752) = 10 from rfl]
  rw [min_eq_left (by norm_num : ((7 : ℕ) : ℚ) ≤ ((10 : ℤ) : ℚ))]
  norm_num

/-- C5 (counterexample): the claim says a BOOLEAN goal's completion is
`null` for every value its `targetValue` field may hold, but nothing stops
a BOOLEAN goal from carrying a positive `targetValue` (the goal validator
only constrains COUNT/WEEKLY), and then the code's
`else if (target && target > 0)` branch applies: with `targetValue = 20`
and no check-ins the completion is `0`, not `null`. -/
theorem C5_boolean_counterexample :
    (goalProgress ⟨.BOOLEAN, some 20, 19723, none⟩ 19752 []).targetType =
      .BOOLEAN ∧
    (goalProgress ⟨.BOOLEAN, some 20, 19723, none⟩ 19752 []).completion =
      some 0 ∧
    some (0 : ℚ) ≠ none := by
  refine ⟨rfl, ?_, by simp⟩
  have h : (goalProgress ⟨.BOOLEAN, some 20, 19723, none⟩ 19752 []).completion
      = some (min 1 (0 / 20)) := rfl
  rw [h, show (0 : ℚ) / 20 = 0 from by norm_num,
    min_eq_right (by norm_num : (0 : ℚ) ≤ 1)]

/-- C5 (amended): for every non-DAILY goal (COUNT, WEEKLY and BOOLEAN
alike), completion is `min(1, valueSum / targetValue)` — hence never above
1 — whenever `targetValue > 0`, and `null` exactly when `targetValue` is
absent or not greater than 0; BOOLEAN is not special-cased. -/
theorem C5_non_daily_completion (g : Goal) (rangeTo : Int)
    (cs : List GoalCheckin) (hT : g.targetType ≠ .DAILY) :
    (∀ t, g.targetValue = some t → 0 < t →
      (goalProgress g rangeTo cs).completion =
        some (min 1 ((goalProgress g rangeTo cs).valueSum / t)) ∧
      ∀ q, (goalProgress g rangeTo cs).completion = some q → q ≤ 1) ∧
    (g.targetValue = none → (goalProgress g rangeTo cs).completion = none) ∧
    (∀ t, g.targetValue = some t → t ≤ 0 →
      (goalProgress g rangeTo cs).completion = none) := by
  refine ⟨?_, ?_, ?_⟩
  · intro t ht hpos
    have hc : (goalProgress g rangeTo cs).completion =
        some (min 1 ((goalProgress g rangeTo cs).valueSum / t)) := by
      simp only [goalProgress, if_neg hT, ht]
      rw [if_pos hpos]
    refine ⟨hc, ?_⟩
    intro q hq
    rw [hc] at hq
    have := (Option.some.injEq _ _).mp hq
    rw [← this]
    exact min_le_left 1 _
  · intro hn
    simp only [goalProgress, if_neg hT, hn]
  · intro t ht hle
    simp only [goalProgress, if_neg hT, ht]
    rw [if_neg (not_lt.mpr hle)]

/-- C5 (witness): a COUNT goal with `targetValue = 20` and `valueSum = 25`
has completion capped at exactly 1. -/
theorem C5_non_daily_completion_witness :
    (goalProgress ⟨.COUNT, some 20, 19723, none⟩ 19752
      [⟨19723, true, some 25⟩]).completion = some 1 := by
  have h := (C5_non_daily_completion ⟨.COUNT, some 20, 19723, none⟩ 19752
      [⟨19723, true, some 25⟩] (by decide)).1 20 rfl (by norm_num)
  rw [h.1]
  rw [show (goalProgress ⟨.COUNT, some 20, 19723, none⟩ 19752
      [⟨19723, true, some 25⟩]).valueSum = 25 from by
    simp only [goalProgress, List.foldl_cons, List.foldl_nil,
      Option.getD_some, zero_add]]
  rw [min_eq_left (by norm_num : (1 : ℚ) ≤ 25 / 20)]

theorem entriesData_all_period (period : String) (s : List (String × Int)) :
    ∀ e ∈ entriesData period s, e.period = period := by
  intro e he
  simp only [entriesData, List.mem_map, List.mem_filter] at he
  obtain ⟨p, _, rfl⟩ := he
  rfl

theorem filter_eq_entriesData (period : String) (s : List (String × Int)) :
    (entriesData period s).filter (fun e => e.period == period) =
      entriesData period s := by
  apply List.filter_eq_self.mpr
  intro e he
  simp [entriesData_all_period period s e he]

theorem filter_discard_then_keep (l : List RankingEntry) (period : String) :
    (l.filter fun e => !(e.period == period)).filter
      (fun e => e.period == period) = [] := by
  rw [List.filter_filter]
  apply List.filter_eq_nil_iff.mpr
  intro e _
  simp

theorem filter_discard_idem (l : List RankingEntry) (period : String) :
    (l.filter fun e => !(e.period == period)).filter
      (fun e => !(e.period == period)) =
      l.filter (fun e => !(e.period == period)) := by
  rw [List.filter_filter]
  apply List.filter_congr
  intro e _
  by_cases h : e.period = period <;> simp [h]

theorem filter_discard_other (l : List RankingEntry) (period q : String)
    (hq : q ≠ period) :
    (l.filter fun e => !(e.period == period)).filter
      (fun e => e.period == q) = l.filter (fun e => e.period == q) := by
  rw [List.filter_filter]
  apply List.filter_congr
  intro e _
  by_cases h : e.period = q
  · simp [h, hq]
  · simp [h]

theorem filter_entriesData_other (period q : String) (s : List (String × Int))
    (l : List RankingEntry) (hl : ∀ e ∈ l, e ∈ entriesData period s) :
    l.filter (fun e => e.period == q) = [] ∨ q = period := by
  by_cases hq : q = period
  · exact Or.inr hq
  · refine Or.inl (List.filter_eq_nil_iff.mpr ?_)
    intro e he
    have := entriesData_all_period period s e (hl e he)
    simp only [this, beq_iff_eq]
    exact fun h => hq h.symm

/-- C6: running the ranking computation twice for the same period leaves
exactly the entries derived from the second run's scores for that period
(no residue from the first run), and leaves every other period's persisted
entries untouched. -/
theorem C6_ranking_replace (db : List RankingEntry) (period : String)
    (s1 s2 : List (String × Int)) :
    (computePersist (computePersist db period s1) period s2).filter
        (fun e => e.period == period) = entriesData period s2 ∧
    ∀ q, q ≠ period →
      (computePersist (computePersist db period s1) period s2).filter
          (fun e => e.period == q) = db.filter (fun e => e.period == q) := by
  constructor
  · simp only [computePersist, List.filter_append]
    rw [filter_eq_entriesData]
    rw [filter_discard_then_keep]
    rw [filter_discard_then_keep]
    simp
  · intro q hq
    simp only [computePersist, List.filter_append]
    have h2 : (entriesData period s2).filter (fun e => e.period == q) = [] := by
      rcases filter_entriesData_other period q s2 (entriesData period s2)
        (fun e he => he) with h | h
      · exact h
      · exact absurd h hq
    have h1 : ((entriesData period s1).filter
        (fun e => !(e.period == period))).filter (fun e => e.period == q)
        = [] := by
      rcases filter_entriesData_other period q s1 _
        (fun e he => (List.mem_filter.mp he).1) with h | h
      · exact h
      · exact absurd h hq
    rw [h2, h1, filter_discard_idem, filter_discard_other _ _ _ hq,
      List.append_nil, List.append_nil]

/-- C6 (witness): the replace evaluated on a database holding entries for
periods `"p"` and `"q"`. -/
theorem C6_ranking_replace_witness :
    (computePersist (computePersist [⟨"q", "x", 5⟩] "p" [("a", 3)]) "p"
        [("b", 2)]).filter (fun e => e.period == "p") =
      entriesData "p" [("b", 2)] ∧
    (computePersist (computePersist [⟨"q", "x", 5⟩] "p" [("a", 3)]) "p"
        [("b", 2)]).filter (fun e => e.period == "q") = [⟨"q", "x", 5⟩] := by
  have h := C6_ranking_replace [⟨"q", "x", 5⟩] "p" [("a", 3)] [("b", 2)]
  refine ⟨h.1, ?_⟩
  rw [h.2 "q" (by decide)]
  decide

theorem notifsFrom_length (period : String) (total : Nat) :
    ∀ (l : List RankingEntry) (r : Nat),
      (notifsFrom period total r l).length = l.length := by
  intro l
  induction l with
  | nil => intro r; rfl
  | cons e rest ih =>
    intro r
    simp only [notifsFrom, List.length_cons, ih]

theorem notifsFrom_get (period : String) (total : Nat) :
    ∀ (l : List RankingEntry) (r i : Nat) (h : i < l.length)
      (h2 : i < (notifsFrom period total r l).length),
      (notifsFrom period total r l).get ⟨i, h2⟩ =
        ⟨(l.get ⟨i, h⟩).userId, if r + i ≤ 3 then .TOP3 else .RESULT, period,
          r + i, (l.get ⟨i, h⟩).score, total⟩ := by
  intro l
  induction l with
  | nil => intro r i h h2; exact absurd h (Nat.not_lt_zero i)
  | cons e rest ih =>
    intro r i h h2
    cases i with
    | zero => simp [notifsFrom]
    | succ j =>
      have hj : j < rest.length := Nat.lt_of_succ_lt_succ h
      have hj2 : j < (notifsFrom period total (r + 1) rest).length := by
        rw [notifsFrom_length]
        exact hj
      have hrec := ih (r + 1) j hj hj2
      have he : r + 1 + j = r + (j + 1) := by omega
      rw [he] at hrec
      exact hrec

/-- C7: the read-back leaderboard is ordered score-descending, every entry
is assigned the 1-based rank equal to its position (so ties leave no rank
gaps), and the notification for position `i` carries kind `TOP3` exactly
when its rank `i + 1` is at most 3 (`RESULT` otherwise) together with the
period, the entry's score path and the total number of ranked users. -/
theorem C7_rank_assignment (db : List RankingEntry) (period : String) :
    List.Sorted scoreGE (computeRankings db period) ∧
    (notificationsFor period (computeRankings db period)).length =
      (computeRankings db period).length ∧
    ∀ (i : Nat) (hi : i < (computeRankings db period).length),
      ∃ hn : i < (notificationsFor period (computeRankings db period)).length,
        (notificationsFor period (computeRankings db period)).get ⟨i, hn⟩ =
          ⟨((computeRankings db period).get ⟨i, hi⟩).userId,
            if i + 1 ≤ 3 then .TOP3 else .RESULT, period, i + 1,
            ((computeRankings db period).get ⟨i, hi⟩).score,
            (computeRankings db period).length⟩ := by
  refine ⟨List.sorted_insertionSort scoreGE _, ?_, ?_⟩
  · exact notifsFrom_length period _ _ 1
  · intro i hi
    have hn : i <
        (notificationsFor period (computeRankings db period)).length := by
      show i < (notifsFrom period _ 1 _).length
      rw [notifsFrom_length]
      exact hi
    refine ⟨hn, ?_⟩
    have hrec := notifsFrom_get period (computeRankings db period).length
      (computeRankings db period) 1 i hi hn
    have he : 1 + i = i + 1 := by omega
    rw [he] at hrec
    exact hrec

/-- C7 (witness): for persisted scores 10, 7, 7 in period `"p"`, the entry
at position 2 of the score-descending leaderboard gets rank 3 and kind
`TOP3`, and the leaderboard is sorted. -/
theorem C7_rank_assignment_witness :
    List.Sorted scoreGE (computeRankings
      [⟨"p", "b", 7⟩, ⟨"p", "a", 10⟩, ⟨"p", "c", 7⟩] "p") ∧
    (notificationsFor "p" (computeRankings
        [⟨"p", "b", 7⟩, ⟨"p", "a", 10⟩, ⟨"p", "c", 7⟩] "p")).get
        ⟨2, by decide⟩ = ⟨"c", .TOP3, "p", 3, 7, 3⟩ := by
  have h := C7_rank_assignment [⟨"p", "b", 7⟩, ⟨"p", "a", 10⟩, ⟨"p", "c", 7⟩] "p"
  refine ⟨h.1, ?_⟩
  obtain ⟨hn, he⟩ := h.2.2 2 (by decide)
  rw [he]
  decide

/-- C8: the spec claims a failed notification dispatch never aborts the
computation and that `compute` still returns the full leaderboard.  The
code starts every per-recipient dispatch (so the other recipients are
still attempted) but awaits them with a bare `Promise.all`, so a single
rejection propagates out of `compute`: here, with users `a` (score 10) and
`b` (score 5) and a dispatcher that fails for `a`, both dispatches are
attempted and the leaderboard replace is committed, yet `compute` ends in
the error outcome instead of returning the result. -/
theorem C8_dispatch_failure_aborts_compute :
    computeRun (fun u => u == "a") [] "p" [("a", 10), ("b", 5)] =
      ([⟨"p", "a", 10⟩, ⟨"p", "b", 5⟩], ["a", "b"], .error ()) ∧
    computeRun (fun _ => false) [] "p" [("a", 10), ("b", 5)] =
      ([⟨"p", "a", 10⟩, ⟨"p", "b", 5⟩], ["a", "b"],
        .ok ⟨"p", 2, [⟨"p", "a", 10⟩, ⟨"p", "b", 5⟩]⟩) :=
  ⟨by rfl, by rfl⟩

theorem bumpGoal_inv (m : List Bucket) (k : String) (inc : Nat)
    (hm : ∀ b ∈ m, b.total = b.goalCheckins + b.streakCheckins) :
    ∀ b ∈ bumpGoal m k inc, b.total = b.goalCheckins + b.streakCheckins := by
  intro b hb
  simp only [bumpGoal] at hb
  split at hb
  · obtain ⟨a, ha, hfa⟩ := List.mem_map.mp hb
    by_cases h : (a.key == k) = true
    · rw [if_pos h] at hfa
      rw [← hfa]
    · rw [if_neg h] at hfa
      rw [← hfa]
      exact hm a ha
  · rcases List.mem_append.mp hb with h | h
    · exact hm b h
    · rw [List.mem_singleton.mp h]

theorem bumpStreak_inv (m : List Bucket) (k : String)
    (hm : ∀ b ∈ m, b.total = b.goalCheckins + b.streakCheckins) :
    ∀ b ∈ bumpStreak m k, b.total = b.goalCheckins + b.streakCheckins := by
  intro b hb
  simp only [bumpStreak] at hb
  split at hb
  · obtain ⟨a, ha, hfa⟩ := List.mem_map.mp hb
    by_cases h : (a.key == k) = true
    · rw [if_pos h] at hfa
      rw [← hfa]
    · rw [if_neg h] at hfa
      rw [← hfa]
      exact hm a ha
  · rcases List.mem_append.mp hb with h | h
    · exact hm b h
    · rw [List.mem_singleton.mp h]

theorem foldlGoal_inv (period : Period) (gs : List GoalCheckin) :
    ∀ m, (∀ b ∈ m, b.total = b.goalCheckins + b.streakCheckins) →
      ∀ b ∈ gs.foldl (fun m c => bumpGoal m (bucketKey c.date period)
        (if isActive c then 1 else 0)) m,
        b.total = b.goalCheckins + b.streakCheckins := by
  induction gs with
  | nil => intro m hm; exact hm
  | cons c cs ih =>
    intro m hm
    exact ih _ (bumpGoal_inv m (bucketKey c.date period) _ hm)

theorem foldlStreak_inv (period : Period) (ss : List Int) :
    ∀ m, (∀ b ∈ m, b.total = b.goalCheckins + b.streakCheckins) →
      ∀ b ∈ ss.foldl (fun m d => bumpStreak m (bucketKey d period)) m,
        b.total = b.goalCheckins + b.streakCheckins := by
  induction ss with
  | nil => intro m hm; exact hm
  | cons d ds ih =>
    intro m hm
    exact ih _ (bumpStreak_inv m (bucketKey d period) hm)

/-- C9: every bucket returned by `activityMetrics` satisfies
`total = goalCheckins + streakCheckins` with non-negative counters, and
the returned sequence is sorted ascending by bucket key. -/
theorem C9_bucket_invariant (period : Period) (gs : List GoalCheckin)
    (ss : List Int) :
    (∀ b ∈ activityMetrics period gs ss,
      b.total = b.goalCheckins + b.streakCheckins ∧
      0 ≤ b.goalCheckins ∧ 0 ≤ b.streakCheckins ∧ 0 ≤ b.total) ∧
    List.Sorted keyLE (activityMetrics period gs ss) := by
  constructor
  · intro b hb
    simp only [activityMetrics] at hb
    refine ⟨?_, Nat.zero_le _, Nat.zero_le _, Nat.zero_le _⟩
    have hb2 := (List.perm_insertionSort keyLE _).mem_iff.mp hb
    have hinner := foldlGoal_inv period gs []
      (by intro b hb; exact absurd hb (List.not_mem_nil b))
    have houter := foldlStreak_inv period ss _ hinner
    exact houter b hb2
  · simp only [activityMetrics]
    exact List.sorted_insertionSort keyLE _

/-- C9 (witness): the invariant and ordering evaluated on a concrete
request: one active goal check-in and two streak check-ins bucketed by
week produce the sorted buckets `2024-W00` (total 2) and `2024-W01`
(total 1). -/
theorem C9_bucket_invariant_witness :
    (⟨"2024-W00", 1, 1, 2⟩ : Bucket).total = 1 + 1 ∧
    List.Sorted keyLE
      (activityMetrics .week [⟨19723, true, none⟩] [19724, 19730]) := by
  have h := C9_bucket_invariant .week [⟨19723, true, none⟩] [19724, 19730]
  exact ⟨(h.1 ⟨"2024-W00", 1, 1, 2⟩ (by decide)).1, h.2⟩

/-- C10: a goal check-in that is not active (done = false, no positive
value) still creates its bucket on first reference — the upsert inserts a
zero bucket and the counter is incremented by 0 — so the returned bucket
list can contain buckets whose three counters are all 0: with a single
inactive record on 2024-01-01 the result is exactly one all-zero bucket. -/
theorem C10_inactive_creates_zero_bucket :
    (∀ k : String, bumpGoal [] k 0 = [⟨k, 0, 0, 0⟩]) ∧
    isActive ⟨19723, false, none⟩ = false ∧
    activityMetrics .day [⟨19723, false, none⟩] [] =
      [⟨"2024-01-01", 0, 0, 0⟩] :=
  ⟨fun _ => rfl, by decide, by decide⟩

end LifeTraker
